import Mathlib

/-!
# Verification of the fluent-rs `FluentBundle` (src/fluent-bundle/src/bundle.rs)

A shallow embedding of the bundle facade of fluent-rs: the entry registry
(a single `HashMap<String, Entry>` keyed by textual id), resource loading
(`add_resource`), function registration (`add_function`), message lookup
(`has_message`), and formatting (`format`, `compound`).

The registry is modelled as an association list with first-match lookup and
insert-only-if-vacant semantics, mirroring the `HashMap` entry API used in
`bundle.rs`.  The pattern resolver (`resolve.rs`), runtime value type
(`types.rs`) and entry accessors (`entry.rs`) are not part of the visible
source; they are modelled from the specification where noted.
-/

set_option autoImplicit false

namespace FluentRs

/-- Modelled from the spec: the runtime value type (`types.rs`,
`FluentValue`) is not under the visible source.  Per the spec it is a
variant over None (absence placeholder), String, and Number (kept in its
textual form); stringifying never fails and None stringifies to empty. -/
inductive FluentValue where
  | none
  | str (s : String)
  | number (n : String)
deriving DecidableEq

/-- Modelled from the spec: stringification of a runtime value.  None
stringifies to empty, numbers stringify to their textual form. -/
def FluentValue.toDisplay : FluentValue → String
  | .none => ""
  | .str s => s
  | .number n => n

/-- An inline expression occurring inside a placeable of the content tree
(the subset of `fluent_syntax::ast` exercised by the bundle: variable
references and message/term references with an optional attribute). -/
inductive InlineExpr where
  | variableReference (id : String)
  | messageReference (id : String) (attr : Option String)
  | termReference (id : String) (attr : Option String)
deriving DecidableEq

/-- One element of a pattern: literal text or a placeable. -/
inductive PatternElement where
  | textElement (s : String)
  | placeable (ex : InlineExpr)
deriving DecidableEq

/-- A pattern is a sequence of elements (`ast::Pattern`). -/
abbrev Pattern := List PatternElement

/-- An attribute of a message or term: its own id and value pattern. -/
structure Attribute where
  id : String
  value : Pattern
deriving DecidableEq

/-- The shape shared by `ast::Message` and `ast::Term`: an identifier, an
optional value pattern, and a list of attributes. -/
structure MessageAst where
  id : String
  value : Option Pattern
  attributes : List Attribute
deriving DecidableEq

/-- One entry of a parsed resource body (`ast::ResourceEntry`); entries
other than messages and terms (comments, junk) are skipped by
`add_resource` via the catch-all `continue` arms. -/
inductive ResourceEntry where
  | message (m : MessageAst)
  | term (t : MessageAst)
  | junk
deriving DecidableEq

/-- A parsed resource (`FluentResource`): its ast body. -/
structure FluentResource where
  body : List ResourceEntry
deriving DecidableEq

/-- A registered function: positional arguments and named arguments to a
runtime value (`bundle.add_function`'s `F`). -/
def FluentFunction : Type :=
  List FluentValue → List (String × FluentValue) → FluentValue

/-- A registry entry (`entry.rs`'s `Entry`): a message, a term, or a
function, stored in the one `entries` map of the bundle. -/
inductive Entry where
  | message (m : MessageAst)
  | term (t : MessageAst)
  | function (f : FluentFunction)

/-- Modelled from the spec: the resolver's recoverable error type
(`resolve.rs`, `ResolverError`) is not under the visible source.  Per the
spec the recoverable errors are unknown references and cyclic
references. -/
inductive ResolverError where
  | reference (description : String)
  | cyclic (description : String)
deriving DecidableEq

/-- `errors.rs`'s `FluentError`: an `Overriding` load error carrying the
kind ("message" / "term" / "function") and id, or a converted resolver
error. -/
inductive FluentError where
  | overriding (kind : String) (id : String)
  | resolverError (e : ResolverError)
deriving DecidableEq

/-- The bundle's entry map, `HashMap<String, Entry>`, modelled as an
association list with first-match lookup; the insert-if-vacant discipline
of `bundle.rs` keeps keys unique. -/
abbrev Registry := List (String × Entry)

/-- First-match association lookup (the `HashMap` get / entry test). -/
def alookup {α : Type} : List (String × α) → String → Option α
  | [], _ => Option.none
  | (k, v) :: rest, id => if k = id then some v else alookup rest id

/-- Lookup an entry of any kind under a textual id. -/
def lookupEntry (reg : Registry) (id : String) : Option Entry :=
  alookup reg id

/-- `entry.rs`'s `get_message`: the entry under `id`, provided it is a
message. -/
def getMessage (reg : Registry) (id : String) : Option MessageAst :=
  match lookupEntry reg id with
  | some (Entry.message m) => some m
  | _ => Option.none

/-- `entry.rs`'s `get_term`: the entry under `id`, provided it is a
term. -/
def getTerm (reg : Registry) (id : String) : Option MessageAst :=
  match lookupEntry reg id with
  | some (Entry.term t) => some t
  | _ => Option.none

/-- `entry.rs`'s `get_function`: the entry under `id`, provided it is a
function. -/
def getFunction (reg : Registry) (id : String) : Option FluentFunction :=
  match lookupEntry reg id with
  | some (Entry.function f) => some f
  | _ => Option.none

/-- `types.rs`'s `DisplayableNode`: the id of the requested top-level
entry together with the optionally requested attribute. -/
structure DisplayableNode where
  id : String
  attr : Option String
deriving DecidableEq

/-- The display text of a node: `id` or `id.attr`. -/
def DisplayableNode.display (n : DisplayableNode) : String :=
  match n.attr with
  | some a => n.id ++ "." ++ a
  | Option.none => n.id

/-- Find the first attribute with the given name
(`message.attributes.iter().find(...)` in `bundle.rs`). -/
def findAttr : List Attribute → String → Option Attribute
  | [], _ => Option.none
  | a :: rest, name => if a.id = name then some a else findAttr rest name

/-- Caller-supplied arguments for one `format`/`compound` call. -/
abbrev FluentArgs := List (String × FluentValue)

/-- Modelled from the spec: one step of placeable resolution
(`resolve.rs` is not under the visible source).  A variable reference
looks up the caller arguments and on a miss records a reference error and
substitutes the variable's own name.  A message/term reference looks up
the registry by the correct kind; on a miss it records a reference error
and falls back to the literal reference text; on a hit the target pattern
is resolved through the cycle guard: if the target is already being
resolved, a cyclic-reference error is recorded and the display text of
the originally requested top-level entry is substituted, otherwise the
target is pushed onto the guard and `recur` descends into its pattern. -/
def resolveExprWith (reg : Registry) (args : FluentArgs) (top : DisplayableNode)
    (recur : List String → Pattern → String × List ResolverError)
    (travelled : List String) : InlineExpr → String × List ResolverError
  | .variableReference id =>
    match alookup args id with
    | some v => (v.toDisplay, [])
    | Option.none => (id, [ResolverError.reference ("Unknown variable: $" ++ id)])
  | .messageReference id attr =>
    match getMessage reg id, attr with
    | Option.none, Option.none =>
      (id, [ResolverError.reference ("Unknown message: " ++ id)])
    | Option.none, some a =>
      (id ++ "." ++ a, [ResolverError.reference ("Unknown message: " ++ id)])
    | some m, Option.none =>
      match m.value with
      | Option.none => (id, [ResolverError.reference ("No value: " ++ id)])
      | some p =>
        if id ∈ travelled then (top.display, [ResolverError.cyclic id])
        else recur (id :: travelled) p
    | some m, some a =>
      match findAttr m.attributes a with
      | Option.none =>
        (id ++ "." ++ a, [ResolverError.reference ("Unknown attribute: " ++ a)])
      | some att =>
        let key := id ++ "." ++ a
        if key ∈ travelled then (top.display, [ResolverError.cyclic key])
        else recur (key :: travelled) att.value
  | .termReference id attr =>
    match getTerm reg id, attr with
    | Option.none, Option.none =>
      ("-" ++ id, [ResolverError.reference ("Unknown term: " ++ id)])
    | Option.none, some a =>
      ("-" ++ id ++ "." ++ a, [ResolverError.reference ("Unknown term: " ++ id)])
    | some t, Option.none =>
      match t.value with
      | Option.none => ("-" ++ id, [ResolverError.reference ("No value: " ++ id)])
      | some p =>
        let key := "-" ++ id
        if key ∈ travelled then (top.display, [ResolverError.cyclic key])
        else recur (key :: travelled) p
    | some t, some a =>
      match findAttr t.attributes a with
      | Option.none =>
        ("-" ++ id ++ "." ++ a, [ResolverError.reference ("Unknown attribute: " ++ a)])
      | some att =>
        let key := "-" ++ id ++ "." ++ a
        if key ∈ travelled then (top.display, [ResolverError.cyclic key])
        else recur (key :: travelled) att.value

/-- Modelled from the spec: walking one pattern, concatenating literal
text unchanged and replacing each placeable by its resolved, stringified
value; errors from the elements are accumulated in order. -/
def resolvePatternWith
    (resolveE : List String → InlineExpr → String × List ResolverError)
    (travelled : List String) : Pattern → String × List ResolverError
  | [] => ("", [])
  | PatternElement.textElement s :: rest =>
    let r := resolvePatternWith resolveE travelled rest
    (s ++ r.1, r.2)
  | PatternElement.placeable ex :: rest =>
    let v := resolveE travelled ex
    let r := resolvePatternWith resolveE travelled rest
    (v.1 ++ r.1, v.2 ++ r.2)

/-- Modelled from the spec: the recursive pattern evaluator.  Recursion
into referenced entries spends one unit of fuel; the cycle guard bounds
the real recursion depth by the number of distinct entry identifiers, so
any fuel of at least that size makes the fuel-exhaustion branch
unreachable.  On exhaustion the cycle fallback (the top-level entry's
display text) is produced. -/
def resolvePattern (reg : Registry) (args : FluentArgs) (top : DisplayableNode) :
    Nat → List String → Pattern → String × List ResolverError
  | 0, _, _ => (top.display, [ResolverError.cyclic top.display])
  | fuel + 1, travelled, p =>
    resolvePatternWith
      (resolveExprWith reg args top (resolvePattern reg args top fuel))
      travelled p

/-- Fuel that strictly dominates the number of distinct registry
identifiers (entries plus their attributes). -/
def registryFuel (reg : Registry) : Nat :=
  reg.length + (reg.map (fun p =>
    match p.2 with
    | Entry.message m => m.attributes.length
    | Entry.term t => t.attributes.length
    | Entry.function _ => 0)).sum + 1

/-- Modelled from the spec: `resolve.rs`'s `resolve_value_for_entry` —
resolve the value pattern of the requested top-level entry, with the
cycle guard initialised to that entry (pushed before its content is
evaluated), returning the resolved string and the recoverable errors
collected during the call. -/
def resolveValueForEntry (reg : Registry) (args : FluentArgs) (value : Pattern)
    (entry : DisplayableNode) (fuel : Nat) : String × List ResolverError :=
  resolvePattern reg args entry fuel [entry.display] value

/-- The bundle: locale fallback chain and the single entry map
(`FluentBundle` in `bundle.rs`; the plural-rules provider is an external
black box not touched by the registry and formatting operations modelled
here). -/
structure FluentBundle where
  locales : List String
  entries : Registry

/-- `FluentBundle::has_message`: true when a message entry with this id
exists. -/
def FluentBundle.hasMessage (b : FluentBundle) (id : String) : Bool :=
  (getMessage b.entries id).isSome

/-- `FluentBundle::add_function`: registers the function only if the id
is vacant in the entry map; an occupied id (of any kind) is rejected with
an `Overriding` error of kind "function" and the bundle is left
unchanged. -/
def FluentBundle.addFunction (b : FluentBundle) (id : String) (f : FluentFunction) :
    Except FluentError FluentBundle :=
  match lookupEntry b.entries id with
  | Option.none =>
    Except.ok ⟨b.locales, b.entries ++ [(id, Entry.function f)]⟩
  | some _ => Except.error (FluentError.overriding "function" id)

/-- The kind label, id and registry entry that `add_resource` derives
from one resource entry; `Option.none` for skipped entries. -/
def ResourceEntry.entryOf : ResourceEntry → Option (String × Entry × String)
  | .message m => some (m.id, Entry.message m, "message")
  | .term t => some (t.id, Entry.term t, "term")
  | .junk => Option.none

/-- The loop body of `FluentBundle::add_resource` over a resource body:
each message/term is inserted when its id is vacant; an occupied id
produces an `Overriding` error with the entrant's kind and id and leaves
the map unchanged; other entries are skipped. -/
def addEntries : Registry → List ResourceEntry → Registry × List FluentError
  | reg, [] => (reg, [])
  | reg, re :: rest =>
    match re.entryOf with
    | Option.none => addEntries reg rest
    | some (id, e, kind) =>
      match lookupEntry reg id with
      | Option.none => addEntries (reg ++ [(id, e)]) rest
      | some _ =>
        let r := addEntries reg rest
        (r.1, FluentError.overriding kind id :: r.2)

/-- `FluentBundle::add_resource`: best-effort load of a resource.  The
second component is the list of duplicate-id errors; the Rust call
returns `Ok(())` exactly when that list is empty. -/
def FluentBundle.addResource (b : FluentBundle) (res : FluentResource) :
    FluentBundle × List FluentError :=
  let r := addEntries b.entries res.body
  (⟨b.locales, r.1⟩, r.2)

/-- The split of a path at the first '.' (Rust's `path.find('.')` with
the two slices): the part before the first dot, and, when a dot exists,
the entire remainder after it. -/
def splitFirstDot : List Char → List Char × Option (List Char)
  | [] => ([], Option.none)
  | c :: rest =>
    if c = '.' then ([], some rest)
    else
      let r := splitFirstDot rest
      (c :: r.1, r.2)

/-- The dotted branch of `FluentBundle::format`: look up the message, then
the named attribute; either miss returns `Option.none`; otherwise the
attribute's pattern is resolved. -/
def FluentBundle.formatWithAttr (b : FluentBundle) (messageId attrName : String)
    (args : FluentArgs) : Option (String × List FluentError) :=
  match getMessage b.entries messageId with
  | Option.none => Option.none
  | some m =>
    match findAttr m.attributes attrName with
    | Option.none => Option.none
    | some attr =>
      let r := resolveValueForEntry b.entries args attr.value ⟨m.id, some attr.id⟩
        (registryFuel b.entries)
      some (r.1, r.2.map FluentError.resolverError)

/-- The bare branch of `FluentBundle::format`: look up the message; a miss
or a value-less message returns `Option.none`; otherwise the value
pattern is resolved. -/
def FluentBundle.formatBare (b : FluentBundle) (messageId : String)
    (args : FluentArgs) : Option (String × List FluentError) :=
  match getMessage b.entries messageId with
  | Option.none => Option.none
  | some m =>
    match m.value with
    | Option.none => Option.none
    | some value =>
      let r := resolveValueForEntry b.entries args value ⟨m.id, Option.none⟩
        (registryFuel b.entries)
      some (r.1, r.2.map FluentError.resolverError)

/-- `FluentBundle::format`: split the path at the first '.'; with a dot,
resolve the named attribute of the message named by the part before the
dot; without, resolve the message's value. -/
def FluentBundle.format (b : FluentBundle) (path : String) (args : FluentArgs) :
    Option (String × List FluentError) :=
  match splitFirstDot path.data with
  | (mid, some aname) => b.formatWithAttr mid.asString aname.asString args
  | (mid, Option.none) => b.formatBare mid.asString args

/-- The compound result (`bundle.rs`'s `Message` struct): the optional
resolved value and the map of resolved attributes. -/
structure Message where
  value : Option String
  attributes : List (String × String)
deriving DecidableEq

/-- `HashMap::insert` on the attribute result map: replace the value under
an existing key, otherwise append. -/
def hmInsert : List (String × String) → String → String → List (String × String)
  | [], k, v => [(k, v)]
  | (k0, v0) :: rest, k, v =>
    if k0 = k then (k0, v) :: rest else (k0, v0) :: hmInsert rest k v

/-- The attribute loop of `FluentBundle::compound`: resolve each attribute
in order, inserting its string into the result map and appending its
errors to the accumulated error list. -/
def compoundAttrs (reg : Registry) (args : FluentArgs) (mid : String) (fuel : Nat) :
    List (String × String) → List ResolverError → List Attribute →
    List (String × String) × List ResolverError
  | acc, errs, [] => (acc, errs)
  | acc, errs, attr :: rest =>
    let rv := resolveValueForEntry reg args attr.value ⟨mid, some attr.id⟩ fuel
    compoundAttrs reg args mid fuel (hmInsert acc attr.id rv.1) (errs ++ rv.2) rest

/-- `FluentBundle::compound`: a miss on the message id returns
`Option.none`; otherwise the value (when present) and every attribute are
resolved in order, each resolution contributing its string to the result
and its errors to the one accumulated error list. -/
def FluentBundle.compound (b : FluentBundle) (messageId : String) (args : FluentArgs) :
    Option (Message × List FluentError) :=
  match getMessage b.entries messageId with
  | Option.none => Option.none
  | some m =>
    let fuel := registryFuel b.entries
    let v := m.value.map (fun value =>
      resolveValueForEntry b.entries args value ⟨m.id, Option.none⟩ fuel)
    let initErrs : List ResolverError := (v.map Prod.snd).getD []
    let r := compoundAttrs b.entries args m.id fuel [] initErrs m.attributes
    some (⟨v.map Prod.fst, r.1⟩, r.2.map FluentError.resolverError)

/-- The keys of a registry, in storage order. -/
def regKeys (reg : Registry) : List String :=
  reg.map Prod.fst

/-- The ids of the messages and terms of a resource body, in order,
skipping the entries that `add_resource` skips. -/
def bodyIds (body : List ResourceEntry) : List String :=
  body.filterMap (fun re => re.entryOf.map Prod.fst)

/-- One mutation of a bundle: the two registry-mutating operations of the
public interface. -/
inductive BundleOp where
  | addRes (res : FluentResource)
  | addFn (id : String) (f : FluentFunction)

/-- Apply one mutation, keeping the resulting bundle (on a rejected
`add_function` the bundle is unchanged, as in the Rust code where the
failing call does not touch `self.entries`). -/
def applyOp (b : FluentBundle) : BundleOp → FluentBundle
  | .addRes res => (b.addResource res).1
  | .addFn id f =>
    match b.addFunction id f with
    | Except.ok b' => b'
    | Except.error _ => b

/-- Apply a sequence of mutations in order. -/
def applyOps : FluentBundle → List BundleOp → FluentBundle
  | b, [] => b
  | b, op :: ops => applyOps (applyOp b op) ops

/-- Concrete example message: a value and one attribute, used as witness
data. -/
def egMsgHello : MessageAst :=
  ⟨"hello", some [PatternElement.textElement "Hi!"],
    [⟨"title", [PatternElement.textElement "A title"]⟩]⟩

/-- Concrete example function, used as witness data. -/
def egFn : FluentFunction := fun _ _ => FluentValue.none

/-- Concrete example registry holding a message and a function, used as
witness data. -/
def egReg : Registry :=
  [("hello", Entry.message egMsgHello), ("FN", Entry.function egFn)]

/-- Concrete example bundle over `egReg`, used as witness data. -/
def egBundle : FluentBundle := ⟨["en-US"], egReg⟩

/-! ## Helper lemmas -/

theorem alookup_append_of_isSome {α : Type} {l : List (String × α)} {id : String}
    (l' : List (String × α)) (h : (alookup l id).isSome) :
    alookup (l ++ l') id = alookup l id := by
  induction l with
  | nil => simp [alookup] at h
  | cons p rest ih =>
    obtain ⟨k, v⟩ := p
    by_cases hk : k = id
    · simp [alookup, hk]
    · simp only [alookup, if_neg hk] at h ⊢
      exact ih h

theorem alookup_append_of_eq_none {α : Type} {l : List (String × α)} {id : String}
    (l' : List (String × α)) (h : alookup l id = Option.none) :
    alookup (l ++ l') id = alookup l' id := by
  induction l with
  | nil => simp [alookup]
  | cons p rest ih =>
    obtain ⟨k, v⟩ := p
    by_cases hk : k = id
    · simp [alookup, hk] at h
    · simp only [alookup, if_neg hk] at h ⊢
      exact ih h

theorem alookup_eq_none_iff {α : Type} (l : List (String × α)) (id : String) :
    alookup l id = Option.none ↔ id ∉ l.map Prod.fst := by
  induction l with
  | nil => simp [alookup]
  | cons p rest ih =>
    obtain ⟨k, v⟩ := p
    by_cases hk : k = id
    · simp [alookup, hk]
    · simp [alookup, hk, ih, Ne.symm hk]

theorem alookup_singleton {α : Type} (k : String) (v : α) (id : String) :
    alookup [(k, v)] id = if k = id then some v else Option.none := by
  simp [alookup]

theorem alookup_isSome_iff {α : Type} (l : List (String × α)) (id : String) :
    (alookup l id).isSome ↔ id ∈ l.map Prod.fst := by
  rw [Option.isSome_iff_ne_none]
  have h := alookup_eq_none_iff l id
  tauto

theorem lookupEntry_def (reg : Registry) (id : String) :
    lookupEntry reg id = alookup reg id := rfl

theorem bodyIds_cons (re : ResourceEntry) (rest : List ResourceEntry) :
    bodyIds (re :: rest) =
      match re.entryOf with
      | some (id, _, _) => id :: bodyIds rest
      | Option.none => bodyIds rest := by
  cases hre : re.entryOf with
  | none => simp [bodyIds, List.filterMap_cons, hre]
  | some tr =>
    obtain ⟨id, e, kind⟩ := tr
    simp [bodyIds, List.filterMap_cons, hre]

theorem regKeys_append (reg : Registry) (l : Registry) :
    regKeys (reg ++ l) = regKeys reg ++ regKeys l := by
  simp [regKeys]

theorem lookupEntry_addEntries_of_isSome (body : List ResourceEntry) (reg : Registry)
    (id : String) (h : (lookupEntry reg id).isSome) :
    lookupEntry (addEntries reg body).1 id = lookupEntry reg id := by
  induction body generalizing reg with
  | nil => simp [addEntries]
  | cons re rest ih =>
    cases hre : re.entryOf with
    | none => simp only [addEntries, hre]; exact ih reg h
    | some tr =>
      obtain ⟨id', e, kind⟩ := tr
      cases hlk : lookupEntry reg id' with
      | none =>
        simp only [addEntries, hre, hlk]
        have hpres : lookupEntry (reg ++ [(id', e)]) id = lookupEntry reg id :=
          alookup_append_of_isSome _ h
        have h2 : (lookupEntry (reg ++ [(id', e)]) id).isSome := by rw [hpres]; exact h
        rw [ih (reg ++ [(id', e)]) h2, hpres]
      | some e0 =>
        simp only [addEntries, hre, hlk]
        exact ih reg h

theorem lookupEntry_addEntries_isSome (body : List ResourceEntry) (reg : Registry)
    (id : String) :
    (lookupEntry (addEntries reg body).1 id).isSome ↔
      (lookupEntry reg id).isSome ∨ id ∈ bodyIds body := by
  induction body generalizing reg with
  | nil => simp [addEntries, bodyIds]
  | cons re rest ih =>
    cases hre : re.entryOf with
    | none =>
      simp only [addEntries, hre, bodyIds_cons]
      rw [ih reg]
    | some tr =>
      obtain ⟨id', e, kind⟩ := tr
      cases hlk : lookupEntry reg id' with
      | none =>
        simp only [addEntries, hre, hlk]
        rw [ih (reg ++ [(id', e)])]
        rw [bodyIds_cons, hre]
        have happ : (lookupEntry (reg ++ [(id', e)]) id).isSome ↔
            (lookupEntry reg id).isSome ∨ id = id' := by
          cases hl : lookupEntry reg id with
          | none =>
            rw [lookupEntry_def, alookup_append_of_eq_none _ hl, alookup_singleton]
            by_cases hid : id' = id
            · simp [hid, hl]
            · simp [hid, hl]
              tauto
          | some v =>
            have hs : (alookup reg id).isSome := by
              rw [lookupEntry_def] at hl; simp [hl]
            rw [lookupEntry_def, alookup_append_of_isSome _ hs]
            rw [lookupEntry_def] at hl
            simp [hl]
        rw [happ]
        simp only [List.mem_cons]
        tauto
      | some e0 =>
        simp only [addEntries, hre, hlk]
        rw [ih reg]
        rw [bodyIds_cons, hre]
        simp only [List.mem_cons]
        constructor
        · tauto
        · rintro (h | h | h)
          · exact Or.inl h
          · exact Or.inl (by rw [h, hlk]; rfl)
          · exact Or.inr h

theorem addEntries_errors_nil_iff (body : List ResourceEntry) (reg : Registry)
    (h : (regKeys reg).Nodup) :
    (addEntries reg body).2 = [] ↔ (regKeys reg ++ bodyIds body).Nodup := by
  induction body generalizing reg with
  | nil => simp [addEntries, bodyIds, h]
  | cons re rest ih =>
    cases hre : re.entryOf with
    | none =>
      simp only [addEntries, hre, bodyIds_cons]
      exact ih reg h
    | some tr =>
      obtain ⟨id', e, kind⟩ := tr
      cases hlk : lookupEntry reg id' with
      | none =>
        simp only [addEntries, hre, hlk]
        have hnotin : id' ∉ regKeys reg := by
          have := (alookup_eq_none_iff reg id').mp hlk
          simpa [regKeys] using this
        have hkeys : regKeys (reg ++ [(id', e)]) = regKeys reg ++ [id'] := by
          simp [regKeys]
        have hnd : (regKeys (reg ++ [(id', e)])).Nodup := by
          rw [hkeys, List.nodup_append]
          refine ⟨h, List.nodup_singleton _, ?_⟩
          intro a ha hb
          simp only [List.mem_singleton] at hb
          subst hb
          exact hnotin ha
        rw [ih (reg ++ [(id', e)]) hnd, regKeys_append, bodyIds_cons, hre]
        have hassoc : (regKeys reg ++ regKeys [(id', e)]) ++ bodyIds rest =
            regKeys reg ++ id' :: bodyIds rest := by
          simp [regKeys]
        rw [hassoc]
      | some e0 =>
        simp only [addEntries, hre, hlk]
        have hin : id' ∈ regKeys reg := by
          have hs : (alookup reg id').isSome := by
            rw [lookupEntry_def] at hlk; simp [hlk]
          have hmem := (alookup_isSome_iff reg id').mp hs
          simpa [regKeys] using hmem
        rw [bodyIds_cons, hre]
        constructor
        · intro hfalse; exact absurd hfalse (by simp)
        · intro hnd
          exfalso
          rw [List.nodup_append] at hnd
          exact hnd.2.2 hin (by simp)

theorem getMessage_eq_some_iff (reg : Registry) (id : String) (m : MessageAst) :
    getMessage reg id = some m ↔ lookupEntry reg id = some (Entry.message m) := by
  rw [getMessage]
  cases lookupEntry reg id with
  | none => simp
  | some e => cases e <;> simp

theorem getMessage_addEntries_of_errors_nil (body : List ResourceEntry) (reg : Registry)
    (m : MessageAst) (herr : (addEntries reg body).2 = [])
    (hmem : ResourceEntry.message m ∈ body) :
    getMessage (addEntries reg body).1 m.id = some m := by
  induction body generalizing reg with
  | nil => simp at hmem
  | cons re rest ih =>
    rcases List.mem_cons.mp hmem with hhead | htail
    · subst hhead
      have hre : (ResourceEntry.message m).entryOf = some (m.id, Entry.message m, "message") :=
        rfl
      cases hlk : lookupEntry reg m.id with
      | none =>
        simp only [addEntries, hre, hlk] at herr ⊢
        have hlk2 : lookupEntry (reg ++ [(m.id, Entry.message m)]) m.id =
            some (Entry.message m) := by
          rw [lookupEntry_def, alookup_append_of_eq_none _ hlk, alookup_singleton]
          simp
        have hs : (lookupEntry (reg ++ [(m.id, Entry.message m)]) m.id).isSome := by
          rw [hlk2]; rfl
        rw [getMessage_eq_some_iff,
          lookupEntry_addEntries_of_isSome rest (reg ++ [(m.id, Entry.message m)]) m.id hs]
        exact hlk2
      | some e0 =>
        simp [addEntries, hre, hlk] at herr
    · cases hre : re.entryOf with
      | none =>
        simp only [addEntries, hre] at herr ⊢
        exact ih reg herr htail
      | some tr =>
        obtain ⟨id', e, kind⟩ := tr
        cases hlk : lookupEntry reg id' with
        | none =>
          simp only [addEntries, hre, hlk] at herr ⊢
          exact ih (reg ++ [(id', e)]) herr htail
        | some e0 =>
          simp [addEntries, hre, hlk] at herr

theorem getMessage_applyOp (b : FluentBundle) (op : BundleOp) (id : String)
    (m : MessageAst) (h : getMessage b.entries id = some m) :
    getMessage (applyOp b op).entries id = some m := by
  have hlk := (getMessage_eq_some_iff b.entries id m).mp h
  have hs : (lookupEntry b.entries id).isSome := by rw [hlk]; rfl
  cases op with
  | addRes res =>
    rw [getMessage_eq_some_iff]
    show lookupEntry (addEntries b.entries res.body).1 id = some (Entry.message m)
    rw [lookupEntry_addEntries_of_isSome res.body b.entries id hs]
    exact hlk
  | addFn fid f =>
    rw [getMessage_eq_some_iff]
    show lookupEntry (applyOp b (BundleOp.addFn fid f)).entries id = some (Entry.message m)
    cases hfl : lookupEntry b.entries fid with
    | none =>
      simp only [applyOp, FluentBundle.addFunction, hfl]
      rw [lookupEntry_def, alookup_append_of_isSome _ hs]
      exact hlk
    | some e0 =>
      simp only [applyOp, FluentBundle.addFunction, hfl]
      exact hlk

theorem getMessage_applyOps (ops : List BundleOp) (b : FluentBundle) (id : String)
    (m : MessageAst) (h : getMessage b.entries id = some m) :
    getMessage (applyOps b ops).entries id = some m := by
  induction ops generalizing b with
  | nil => exact h
  | cons op rest ih =>
    exact ih (applyOp b op) (getMessage_applyOp b op id m h)

theorem splitFirstDot_of_not_mem (s : List Char) (h : '.' ∉ s) :
    splitFirstDot s = (s, Option.none) := by
  induction s with
  | nil => rfl
  | cons c rest ih =>
    have hc : ¬c = '.' := by intro hc; exact h (by simp [hc])
    have hrest : '.' ∉ rest := fun hr => h (List.mem_cons_of_mem _ hr)
    simp [splitFirstDot, hc, ih hrest]

theorem splitFirstDot_append (pre post : List Char) (h : '.' ∉ pre) :
    splitFirstDot (pre ++ '.' :: post) = (pre, some post) := by
  induction pre with
  | nil => simp [splitFirstDot]
  | cons c rest ih =>
    have hc : ¬c = '.' := by intro hc; exact h (by simp [hc])
    have hrest : '.' ∉ rest := fun hr => h (List.mem_cons_of_mem _ hr)
    simp [splitFirstDot, hc, ih hrest]

theorem alookup_hmInsert (l : List (String × String)) (k v k' : String) :
    alookup (hmInsert l k v) k' = if k = k' then some v else alookup l k' := by
  induction l with
  | nil => simp [hmInsert, alookup]
  | cons p rest ih =>
    obtain ⟨k0, v0⟩ := p
    by_cases h0 : k0 = k
    · subst h0
      by_cases h1 : k0 = k'
      · subst h1; simp [hmInsert, alookup]
      · simp [hmInsert, alookup, h1]
    · by_cases h1 : k0 = k'
      · subst h1
        have hk : ¬k = k0 := fun h => h0 h.symm
        simp [hmInsert, alookup, h0, hk]
      · simp [hmInsert, alookup, h0, h1, ih]

theorem compoundAttrs_snd (reg : Registry) (args : FluentArgs) (mid : String)
    (fuel : Nat) (attrs : List Attribute) :
    ∀ (acc : List (String × String)) (errs : List ResolverError),
      (compoundAttrs reg args mid fuel acc errs attrs).2 =
        errs ++ (attrs.map (fun a =>
          (resolveValueForEntry reg args a.value ⟨mid, some a.id⟩ fuel).2)).flatten := by
  induction attrs with
  | nil => intro acc errs; simp [compoundAttrs]
  | cons a rest ih =>
    intro acc errs
    simp only [compoundAttrs, List.map_cons, List.flatten]
    rw [ih]
    simp [List.append_assoc]

theorem compoundAttrs_fst_of_not_mem (reg : Registry) (args : FluentArgs) (mid : String)
    (fuel : Nat) (attrs : List Attribute) (aid : String)
    (h : aid ∉ attrs.map Attribute.id) :
    ∀ (acc : List (String × String)) (errs : List ResolverError),
      alookup (compoundAttrs reg args mid fuel acc errs attrs).1 aid = alookup acc aid := by
  induction attrs with
  | nil => intro acc errs; rfl
  | cons a rest ih =>
    intro acc errs
    have ha : ¬a.id = aid := by
      intro hc; exact h (by simp [hc])
    have hrest : aid ∉ rest.map Attribute.id := by
      intro hc; exact h (by simp [hc])
    simp only [compoundAttrs]
    rw [ih hrest, alookup_hmInsert]
    simp [ha]

theorem compoundAttrs_fst_lookup (reg : Registry) (args : FluentArgs) (mid : String)
    (fuel : Nat) (attrs : List Attribute)
    (hnd : (attrs.map Attribute.id).Nodup) (a : Attribute) (ha : a ∈ attrs) :
    ∀ (acc : List (String × String)) (errs : List ResolverError),
      alookup (compoundAttrs reg args mid fuel acc errs attrs).1 a.id =
        some ((resolveValueForEntry reg args a.value ⟨mid, some a.id⟩ fuel).1) := by
  induction attrs with
  | nil => exact absurd ha (by simp)
  | cons x rest ih =>
    intro acc errs
    rcases List.mem_cons.mp ha with hhead | htail
    · subst hhead
      have hnotin : a.id ∉ rest.map Attribute.id := by
        simpa using (List.nodup_cons.mp hnd).1
      simp only [compoundAttrs]
      rw [compoundAttrs_fst_of_not_mem reg args mid fuel rest a.id hnotin,
        alookup_hmInsert]
      simp
    · have hnd2 : (rest.map Attribute.id).Nodup := (List.nodup_cons.mp (by simpa using hnd)).2
      simp only [compoundAttrs]
      exact ih hnd2 htail _ _

theorem findAttr_eq_none_of_forall_ne (attrs : List Attribute) (name : String)
    (h : ∀ a ∈ attrs, a.id ≠ name) : findAttr attrs name = Option.none := by
  induction attrs with
  | nil => rfl
  | cons a rest ih =>
    have ha : ¬a.id = name := h a (by simp)
    simp only [findAttr, if_neg ha]
    exact ih (fun a' ha' => h a' (by simp [ha']))

/-! ## Claim theorems -/

/-- Claim C1, counterexample: the claim says a message and a term may
simultaneously be registered under the same textual id without either
insertion being rejected as a duplicate.  On the code the registry is one
shared namespace: starting from the empty registry, loading a message
"foo" and a term "foo" in one resource rejects the term insertion with an
Overriding error of kind "term", and the term is not registered. -/
theorem c1_counterexample :
    (addEntries []
        [ResourceEntry.message ⟨"foo", some [PatternElement.textElement "m"], []⟩,
         ResourceEntry.term ⟨"foo", some [PatternElement.textElement "t"], []⟩]).2 =
      [FluentError.overriding "term" "foo"] ∧
    getTerm (addEntries []
        [ResourceEntry.message ⟨"foo", some [PatternElement.textElement "m"], []⟩,
         ResourceEntry.term ⟨"foo", some [PatternElement.textElement "t"], []⟩]).1 "foo" =
      Option.none := by
  exact ⟨rfl, rfl⟩

/-- Claim C1, amended: registry identifiers are unique across a single
shared kind-independent namespace.  If any entry already occupies `id`,
then loading a term with textual id `id` is rejected with an Overriding
duplicate error of kind "term" and the bundle is unchanged, and likewise
loading a message with that id is rejected with kind "message". -/
theorem c1_amended (b : FluentBundle) (id : String) (e : Entry)
    (t m : MessageAst) (he : lookupEntry b.entries id = some e)
    (ht : t.id = id) (hm : m.id = id) :
    (b.addResource ⟨[ResourceEntry.term t]⟩).2 = [FluentError.overriding "term" id] ∧
    (b.addResource ⟨[ResourceEntry.term t]⟩).1 = b ∧
    (b.addResource ⟨[ResourceEntry.message m]⟩).2 =
      [FluentError.overriding "message" id] ∧
    (b.addResource ⟨[ResourceEntry.message m]⟩).1 = b := by
  subst ht
  refine ⟨?_, ?_, ?_, ?_⟩
  · simp [FluentBundle.addResource, addEntries, ResourceEntry.entryOf, he]
  · simp [FluentBundle.addResource, addEntries, ResourceEntry.entryOf, he]
  · simp [FluentBundle.addResource, addEntries, ResourceEntry.entryOf, hm, he]
  · simp [FluentBundle.addResource, addEntries, ResourceEntry.entryOf, hm, he]

/-- Witness for the amended claim C1 at a concrete bundle: the id "hello"
is occupied by a message, and a term and a second message under "hello"
are both rejected, leaving the bundle unchanged. -/
theorem c1_amended_witness :
    lookupEntry egBundle.entries "hello" = some (Entry.message egMsgHello) ∧
    ((egBundle.addResource ⟨[ResourceEntry.term ⟨"hello", Option.none, []⟩]⟩).2 =
        [FluentError.overriding "term" "hello"] ∧
      (egBundle.addResource ⟨[ResourceEntry.term ⟨"hello", Option.none, []⟩]⟩).1 =
        egBundle ∧
      (egBundle.addResource ⟨[ResourceEntry.message ⟨"hello", Option.none, []⟩]⟩).2 =
        [FluentError.overriding "message" "hello"] ∧
      (egBundle.addResource ⟨[ResourceEntry.message ⟨"hello", Option.none, []⟩]⟩).1 =
        egBundle) :=
  ⟨rfl, c1_amended egBundle "hello" (Entry.message egMsgHello)
    ⟨"hello", Option.none, []⟩ ⟨"hello", Option.none, []⟩ rfl rfl rfl⟩

/-- Claim C3: on a bundle whose single message is `foo = a (foo) b`, a
pattern referencing the message itself, `format "foo"` returns `some`,
the string is "a foo b" (the cyclic placeable is replaced by the
identifier text of the originally requested top-level message), and the
error list is exactly one CyclicReference error. -/
theorem c3_cyclic_self_reference :
    ((FluentBundle.mk ["en-US"] []).addResource
        ⟨[ResourceEntry.message ⟨"foo",
            some [PatternElement.textElement "a ",
              PatternElement.placeable (InlineExpr.messageReference "foo" Option.none),
              PatternElement.textElement " b"], []⟩]⟩).1.format "foo" [] =
      some ("a foo b", [FluentError.resolverError (ResolverError.cyclic "foo")]) := by
  rfl

/-- Claim C4: inserting under an already-occupied id is first-writer-wins
and state-preserving.  A second `add_resource` load of a message whose id
is occupied is rejected with an Overriding error naming the kind
"message" and the id, the bundle (hence the stored entry and every
formatted output) is unchanged, and a second `add_function` registration
under an occupied id is rejected with an Overriding error naming the kind
"function" and the id, leaving the bundle untouched. -/
theorem c4_first_writer_wins (b : FluentBundle) (id1 id2 path : String)
    (e1 e2 : Entry) (m : MessageAst) (g : FluentFunction) (args : FluentArgs)
    (h1 : lookupEntry b.entries id1 = some e1)
    (h2 : lookupEntry b.entries id2 = some e2) (hm : m.id = id1) :
    (b.addResource ⟨[ResourceEntry.message m]⟩).2 =
      [FluentError.overriding "message" id1] ∧
    (b.addResource ⟨[ResourceEntry.message m]⟩).1 = b ∧
    lookupEntry (b.addResource ⟨[ResourceEntry.message m]⟩).1.entries id1 = some e1 ∧
    (b.addResource ⟨[ResourceEntry.message m]⟩).1.format path args =
      b.format path args ∧
    b.addFunction id2 g = Except.error (FluentError.overriding "function" id2) := by
  subst hm
  have hsame : (b.addResource ⟨[ResourceEntry.message m]⟩).1 = b := by
    simp [FluentBundle.addResource, addEntries, ResourceEntry.entryOf, h1]
  refine ⟨?_, hsame, ?_, ?_, ?_⟩
  · simp [FluentBundle.addResource, addEntries, ResourceEntry.entryOf, h1]
  · rw [hsame]; exact h1
  · rw [hsame]
  · simp [FluentBundle.addFunction, h2]

/-- Witness for claim C4 at a concrete bundle: "hello" is occupied by a
message and "FN" by a function; a second message "hello" and a second
function "FN" are both rejected and the bundle stays intact. -/
theorem c4_witness :
    (lookupEntry egBundle.entries "hello" = some (Entry.message egMsgHello) ∧
      lookupEntry egBundle.entries "FN" = some (Entry.function egFn)) ∧
    ((egBundle.addResource ⟨[ResourceEntry.message ⟨"hello", Option.none, []⟩]⟩).2 =
        [FluentError.overriding "message" "hello"] ∧
      (egBundle.addResource ⟨[ResourceEntry.message ⟨"hello", Option.none, []⟩]⟩).1 =
        egBundle ∧
      lookupEntry (egBundle.addResource
          ⟨[ResourceEntry.message ⟨"hello", Option.none, []⟩]⟩).1.entries "hello" =
        some (Entry.message egMsgHello) ∧
      (egBundle.addResource
          ⟨[ResourceEntry.message ⟨"hello", Option.none, []⟩]⟩).1.format "hello" [] =
        egBundle.format "hello" [] ∧
      egBundle.addFunction "FN" egFn =
        Except.error (FluentError.overriding "function" "FN")) :=
  ⟨⟨rfl, rfl⟩, c4_first_writer_wins egBundle "hello" "FN" "hello"
    (Entry.message egMsgHello) (Entry.function egFn)
    ⟨"hello", Option.none, []⟩ egFn [] rfl rfl rfl⟩

/-- Claim C9: messages, terms, and functions share the one registry
namespace.  `add_function` under any occupied id — whatever the kind of
the occupant — fails with an Overriding error, and conversely a message
or a term loaded under the id of a previously registered function is
rejected as a duplicate, leaving the bundle unchanged. -/
theorem c9_shared_namespace (b : FluentBundle) (id1 id2 : String) (e1 : Entry)
    (f2 g : FluentFunction) (m t : MessageAst)
    (h1 : lookupEntry b.entries id1 = some e1)
    (h2 : lookupEntry b.entries id2 = some (Entry.function f2))
    (hm : m.id = id2) (ht : t.id = id2) :
    b.addFunction id1 g = Except.error (FluentError.overriding "function" id1) ∧
    (b.addResource ⟨[ResourceEntry.message m]⟩).2 =
      [FluentError.overriding "message" id2] ∧
    (b.addResource ⟨[ResourceEntry.message m]⟩).1 = b ∧
    (b.addResource ⟨[ResourceEntry.term t]⟩).2 =
      [FluentError.overriding "term" id2] ∧
    (b.addResource ⟨[ResourceEntry.term t]⟩).1 = b := by
  subst hm
  refine ⟨?_, ?_, ?_, ?_, ?_⟩
  · simp [FluentBundle.addFunction, h1]
  · simp [FluentBundle.addResource, addEntries, ResourceEntry.entryOf, h2]
  · simp [FluentBundle.addResource, addEntries, ResourceEntry.entryOf, h2]
  · simp [FluentBundle.addResource, addEntries, ResourceEntry.entryOf, ht, h2]
  · simp [FluentBundle.addResource, addEntries, ResourceEntry.entryOf, ht, h2]

/-- Witness for claim C9 at a concrete bundle: the occupant of "hello" is
a message (so `add_function "hello"` fails), and the occupant of "FN" is
a function (so a message and a term loaded under "FN" fail). -/
theorem c9_witness :
    (lookupEntry egBundle.entries "hello" = some (Entry.message egMsgHello) ∧
      lookupEntry egBundle.entries "FN" = some (Entry.function egFn)) ∧
    (egBundle.addFunction "hello" egFn =
        Except.error (FluentError.overriding "function" "hello") ∧
      (egBundle.addResource ⟨[ResourceEntry.message ⟨"FN", Option.none, []⟩]⟩).2 =
        [FluentError.overriding "message" "FN"] ∧
      (egBundle.addResource ⟨[ResourceEntry.message ⟨"FN", Option.none, []⟩]⟩).1 =
        egBundle ∧
      (egBundle.addResource ⟨[ResourceEntry.term ⟨"FN", Option.none, []⟩]⟩).2 =
        [FluentError.overriding "term" "FN"] ∧
      (egBundle.addResource ⟨[ResourceEntry.term ⟨"FN", Option.none, []⟩]⟩).1 =
        egBundle) :=
  ⟨⟨rfl, rfl⟩, c9_shared_namespace egBundle "hello" "FN"
    (Entry.message egMsgHello) egFn egFn
    ⟨"FN", Option.none, []⟩ ⟨"FN", Option.none, []⟩ rfl rfl rfl rfl⟩

/-- Claim C5: `add_resource` is best-effort.  The final registry contains
an entry under `id` exactly when one was there before or the resource
body carries a message/term with that id (so every non-duplicate entry is
inserted even when other entries fail); entries present before the load
are untouched; and the call succeeds (empty error list, the Rust
`Ok(())`) exactly when no duplicate occurred, i.e. when the existing keys
together with the body's ids are pairwise distinct. -/
theorem c5_best_effort (b : FluentBundle) (res : FluentResource) (id idp : String)
    (hnd : (regKeys b.entries).Nodup) (hp : (lookupEntry b.entries idp).isSome) :
    ((lookupEntry (b.addResource res).1.entries id).isSome ↔
      (lookupEntry b.entries id).isSome ∨ id ∈ bodyIds res.body) ∧
    lookupEntry (b.addResource res).1.entries idp = lookupEntry b.entries idp ∧
    ((b.addResource res).2 = [] ↔ (regKeys b.entries ++ bodyIds res.body).Nodup) := by
  refine ⟨?_, ?_, ?_⟩
  · exact lookupEntry_addEntries_isSome res.body b.entries id
  · exact lookupEntry_addEntries_of_isSome res.body b.entries idp hp
  · exact addEntries_errors_nil_iff res.body b.entries hnd

/-- Witness for claim C5: loading a fresh message "x" and a duplicate
message "hello" into the concrete bundle inserts "x", keeps the original
"hello" entry, and reports the duplicate. -/
theorem c5_witness :
    ((regKeys egBundle.entries).Nodup ∧
      (lookupEntry egBundle.entries "hello").isSome) ∧
    (((lookupEntry (egBundle.addResource
          ⟨[ResourceEntry.message ⟨"x", Option.none, []⟩,
            ResourceEntry.message ⟨"hello", Option.none, []⟩]⟩).1.entries "x").isSome ↔
        (lookupEntry egBundle.entries "x").isSome ∨
          "x" ∈ bodyIds [ResourceEntry.message ⟨"x", Option.none, []⟩,
            ResourceEntry.message ⟨"hello", Option.none, []⟩]) ∧
      lookupEntry (egBundle.addResource
          ⟨[ResourceEntry.message ⟨"x", Option.none, []⟩,
            ResourceEntry.message ⟨"hello", Option.none, []⟩]⟩).1.entries "hello" =
        lookupEntry egBundle.entries "hello" ∧
      ((egBundle.addResource
          ⟨[ResourceEntry.message ⟨"x", Option.none, []⟩,
            ResourceEntry.message ⟨"hello", Option.none, []⟩]⟩).2 = [] ↔
        (regKeys egBundle.entries ++
          bodyIds [ResourceEntry.message ⟨"x", Option.none, []⟩,
            ResourceEntry.message ⟨"hello", Option.none, []⟩]).Nodup)) :=
  ⟨⟨by decide, rfl⟩, c5_best_effort egBundle
    ⟨[ResourceEntry.message ⟨"x", Option.none, []⟩,
      ResourceEntry.message ⟨"hello", Option.none, []⟩]⟩ "x" "hello"
    (by decide) rfl⟩

/-- Claim C7: `has_message` is monotone.  Immediately after a successful
`add_resource` whose resource contains a message with id `id`, the bundle
has that message; and it keeps having it after any further sequence of
`add_resource`/`add_function` mutations — the registry is append-only. -/
theorem c7_has_message_monotone (b : FluentBundle) (res : FluentResource)
    (id : String) (m : MessageAst) (ops : List BundleOp)
    (hok : (b.addResource res).2 = [])
    (hmem : ResourceEntry.message m ∈ res.body) (hid : m.id = id) :
    (b.addResource res).1.hasMessage id = true ∧
    (applyOps (b.addResource res).1 ops).hasMessage id = true := by
  subst hid
  have hget : getMessage (b.addResource res).1.entries m.id = some m := by
    exact getMessage_addEntries_of_errors_nil res.body b.entries m hok hmem
  constructor
  · rw [FluentBundle.hasMessage, hget]; rfl
  · have hlater := getMessage_applyOps ops (b.addResource res).1 m.id m hget
    rw [FluentBundle.hasMessage, hlater]; rfl

/-- Witness for claim C7: loading the message "hello" into an empty
bundle makes `has_message "hello"` true, and it stays true after a
further resource load and a function registration. -/
theorem c7_witness :
    (((⟨["en-US"], []⟩ : FluentBundle).addResource
        ⟨[ResourceEntry.message egMsgHello]⟩).2 = [] ∧
      ResourceEntry.message egMsgHello ∈
        [ResourceEntry.message egMsgHello] ∧ egMsgHello.id = "hello") ∧
    (((⟨["en-US"], []⟩ : FluentBundle).addResource
        ⟨[ResourceEntry.message egMsgHello]⟩).1.hasMessage "hello" = true ∧
      (applyOps ((⟨["en-US"], []⟩ : FluentBundle).addResource
          ⟨[ResourceEntry.message egMsgHello]⟩).1
        [BundleOp.addRes ⟨[ResourceEntry.message ⟨"x", Option.none, []⟩]⟩,
         BundleOp.addFn "FN" egFn]).hasMessage "hello" = true) :=
  ⟨⟨rfl, by simp, rfl⟩, c7_has_message_monotone ⟨["en-US"], []⟩
    ⟨[ResourceEntry.message egMsgHello]⟩ "hello" egMsgHello
    [BundleOp.addRes ⟨[ResourceEntry.message ⟨"x", Option.none, []⟩]⟩,
     BundleOp.addFn "FN" egFn] rfl (by simp) rfl⟩

/-- Claim C2: `format` returns `Option.none` exactly in three cases — the
part of the path before the first dot is not registered as a message; the
message exists but the named attribute (the remainder after the first
dot) is missing; or the path has no dot and the found message has no
value.  In every other case it returns `some`, all other problems having
been absorbed into the returned error list. -/
theorem c2_format_none_iff (b : FluentBundle) (path : String) (args : FluentArgs) :
    b.format path args = Option.none ↔
      (match splitFirstDot path.data with
      | (mid, some aname) =>
        getMessage b.entries mid.asString = Option.none ∨
        ∃ m, getMessage b.entries mid.asString = some m ∧
          findAttr m.attributes aname.asString = Option.none
      | (mid, Option.none) =>
        getMessage b.entries mid.asString = Option.none ∨
        ∃ m, getMessage b.entries mid.asString = some m ∧ m.value = Option.none) := by
  rw [FluentBundle.format]
  cases hsplit : splitFirstDot path.data with
  | mk mid o =>
    cases o with
    | none =>
      simp only
      rw [FluentBundle.formatBare]
      cases hm : getMessage b.entries mid.asString with
      | none => simp
      | some m =>
        cases hv : m.value with
        | none => simp [hv]
        | some p => simp [hv]
    | some aname =>
      simp only
      rw [FluentBundle.formatWithAttr]
      cases hm : getMessage b.entries mid.asString with
      | none => simp
      | some m =>
        cases ha : findAttr m.attributes aname.asString with
        | none => simp [ha]
        | some attr => simp [ha]

/-- Claim C6: for an existing message, `compound` returns `some`; the
value field is exactly the independent resolution of the value pattern
(when present), every attribute of the message is present in the result
map with exactly its own independent resolution, and the returned error
list is the concatenation of the value's errors with every attribute's
errors in order — one resolution's errors never block another field. -/
theorem c6_compound_independent (b : FluentBundle) (id : String) (args : FluentArgs)
    (m : MessageAst) (a : Attribute) (hm : getMessage b.entries id = some m)
    (hnd : (m.attributes.map Attribute.id).Nodup) (ha : a ∈ m.attributes) :
    ∃ out errs, b.compound id args = some (out, errs) ∧
      out.value = m.value.map (fun p =>
        (resolveValueForEntry b.entries args p ⟨m.id, Option.none⟩
          (registryFuel b.entries)).1) ∧
      alookup out.attributes a.id =
        some ((resolveValueForEntry b.entries args a.value ⟨m.id, some a.id⟩
          (registryFuel b.entries)).1) ∧
      errs = ((m.value.map (fun p =>
            (resolveValueForEntry b.entries args p ⟨m.id, Option.none⟩
              (registryFuel b.entries)).2)).getD []
          ++ (m.attributes.map (fun a' =>
            (resolveValueForEntry b.entries args a'.value ⟨m.id, some a'.id⟩
              (registryFuel b.entries)).2)).flatten).map FluentError.resolverError := by
  simp only [FluentBundle.compound, hm]
  refine ⟨_, _, rfl, ?_, ?_, ?_⟩
  · show Option.map Prod.fst (Option.map _ m.value) = _
    cases m.value <;> rfl
  · exact compoundAttrs_fst_lookup b.entries args m.id (registryFuel b.entries)
      m.attributes hnd a ha _ _
  · rw [compoundAttrs_snd]
    cases hv : m.value with
    | none => simp
    | some p => simp

/-- Witness for claim C6: `compound "hello"` on the concrete bundle
resolves the value and the "title" attribute of the message. -/
theorem c6_witness :
    (getMessage egBundle.entries "hello" = some egMsgHello ∧
      (egMsgHello.attributes.map Attribute.id).Nodup ∧
      (⟨"title", [PatternElement.textElement "A title"]⟩ : Attribute) ∈
        egMsgHello.attributes) ∧
    (∃ out errs, egBundle.compound "hello" [] = some (out, errs) ∧
      out.value = egMsgHello.value.map (fun p =>
        (resolveValueForEntry egBundle.entries [] p ⟨egMsgHello.id, Option.none⟩
          (registryFuel egBundle.entries)).1) ∧
      alookup out.attributes (⟨"title",
          [PatternElement.textElement "A title"]⟩ : Attribute).id =
        some ((resolveValueForEntry egBundle.entries []
          (⟨"title", [PatternElement.textElement "A title"]⟩ : Attribute).value
          ⟨egMsgHello.id, some (⟨"title",
            [PatternElement.textElement "A title"]⟩ : Attribute).id⟩
          (registryFuel egBundle.entries)).1) ∧
      errs = ((egMsgHello.value.map (fun p =>
            (resolveValueForEntry egBundle.entries [] p ⟨egMsgHello.id, Option.none⟩
              (registryFuel egBundle.entries)).2)).getD []
          ++ (egMsgHello.attributes.map (fun a' =>
            (resolveValueForEntry egBundle.entries [] a'.value
              ⟨egMsgHello.id, some a'.id⟩
              (registryFuel egBundle.entries)).2)).flatten).map
          FluentError.resolverError) :=
  ⟨⟨rfl, by decide, by decide⟩, c6_compound_independent egBundle "hello" []
    egMsgHello ⟨"title", [PatternElement.textElement "A title"]⟩
    rfl (by decide) (by decide)⟩

/-- Claim C8: the attribute separator is the first '.' of the path: for a
dot-free `pre`, `format (pre ++ "." ++ post)` resolves message id `pre`
with the entire remainder `post` as the attribute name (later dots are
not split again), and a dot-free path is treated as a bare message
id. -/
theorem c8_path_split (b : FluentBundle) (args : FluentArgs)
    (pre post bare : String) (hpre : '.' ∉ pre.data) (hbare : '.' ∉ bare.data) :
    b.format (pre ++ "." ++ post) args = b.formatWithAttr pre post args ∧
    b.format bare args = b.formatBare bare args := by
  constructor
  · rw [FluentBundle.format]
    have hdata : (pre ++ "." ++ post).data = pre.data ++ '.' :: post.data := by
      simp [String.data_append]
    rw [hdata, splitFirstDot_append pre.data post.data hpre]
    rfl
  · rw [FluentBundle.format, splitFirstDot_of_not_mem bare.data hbare]
    rfl

/-- Witness for claim C8: the path "hello.title" resolves the "title"
attribute of "hello" (a path with an attribute whose name keeps any later
dots whole), and "hello" alone is a bare message id. -/
theorem c8_witness :
    ('.' ∉ ("hello" : String).data ∧ '.' ∉ ("hello" : String).data) ∧
    (egBundle.format ("hello" ++ "." ++ "title") [] =
        egBundle.formatWithAttr "hello" "title" [] ∧
      egBundle.format "hello" [] = egBundle.formatBare "hello" []) :=
  ⟨⟨by decide, by decide⟩,
    c8_path_split egBundle [] "hello" "title" "hello" (by decide) (by decide)⟩

/-- Claim C10: a dotted path never falls back to the message's value: if
the message before the first dot exists but has no attribute named by the
remainder, `format` returns `Option.none` even when the message has a
value pattern; in particular a path with a trailing dot returns
`Option.none` whenever every attribute of the message has a nonempty
name. -/
theorem c10_dotted_no_fallback (b : FluentBundle) (args : FluentArgs)
    (pre post : String) (m : MessageAst) (hpre : '.' ∉ pre.data)
    (hm : getMessage b.entries pre = some m)
    (hnone : findAttr m.attributes post = Option.none)
    (hne : ∀ a ∈ m.attributes, a.id ≠ "") :
    b.format (pre ++ "." ++ post) args = Option.none ∧
    b.format (pre ++ ".") args = Option.none := by
  constructor
  · rw [FluentBundle.format]
    have hdata : (pre ++ "." ++ post).data = pre.data ++ '.' :: post.data := by
      simp [String.data_append]
    rw [hdata, splitFirstDot_append pre.data post.data hpre]
    show b.formatWithAttr pre post args = Option.none
    simp [FluentBundle.formatWithAttr, hm, hnone]
  · rw [FluentBundle.format]
    have hdata : (pre ++ ".").data = pre.data ++ '.' :: ([] : List Char) := by
      simp [String.data_append]
    rw [hdata, splitFirstDot_append pre.data [] hpre]
    show b.formatWithAttr pre "" args = Option.none
    simp [FluentBundle.formatWithAttr, hm,
      findAttr_eq_none_of_forall_ne m.attributes "" hne]

/-- Witness for claim C10: the message "hello" of the concrete bundle has
a value but no attribute "nope", so "hello.nope" and "hello." both format
to `Option.none`. -/
theorem c10_witness :
    ('.' ∉ ("hello" : String).data ∧
      getMessage egBundle.entries "hello" = some egMsgHello ∧
      findAttr egMsgHello.attributes "nope" = Option.none ∧
      (∀ a ∈ egMsgHello.attributes, a.id ≠ "")) ∧
    (egBundle.format ("hello" ++ "." ++ "nope") [] = Option.none ∧
      egBundle.format ("hello" ++ ".") [] = Option.none) :=
  ⟨⟨by decide, rfl, rfl, by decide⟩,
    c10_dotted_no_fallback egBundle [] "hello" "nope" egMsgHello
      (by decide) rfl rfl (by decide)⟩

end FluentRs
